import Mathlib

/-!
Verification development for `core/learning/koopman_eigenfunctions.py`
(class `KoopmanEigenfunctions`).

The numeric pipeline is shallowly embedded over `ℝ` (the source computes in
IEEE double precision; the real numbers are the idealised model of that
arithmetic).  Matrices are lists of rows, vectors are lists.  The outputs of
the external eigendecomposition routine `numpy.linalg.eig` are treated as
parameters of the embedded functions, exactly as the source consumes them.
Fallible operations (attribute access on a `None` model) are embedded into
`Except String`.
-/

namespace Keedmd

/-! ## Power-matrix combinatorics (`construct_linear_eigfuncs`, lines 64-67)

`p = array([ii for ii in range(self.max_power+1)])`
`combinations = array(list(combinations_with_replacement(p, self.n)))`
`powers = array([list(permutations(c, self.n)) for c in combinations])`
`powers = unique(powers.reshape(...), axis=0)`
-/

/-- One layer of the `combinations_with_replacement` recursion: selections of
positive length from the given pool, where `prev` enumerates the selections
that are one element shorter. -/
def cwrStep (prev : List ℕ → List (List ℕ)) : List ℕ → List (List ℕ)
  | [] => []
  | x :: xs => (prev (x :: xs)).map (fun l => x :: l) ++ cwrStep prev xs

/-- Embedding of `itertools.combinations_with_replacement(xs, n)` (count
argument first): all non-decreasing (w.r.t. the order of `xs`) selections of
`n` elements of `xs` with repetition, in the enumeration order of itertools. -/
def cwr : ℕ → List ℕ → List (List ℕ)
  | 0, _ => [[]]
  | n + 1, xs => cwrStep (cwr n) xs

/-- All rows produced by expanding every combination-with-replacement into all
of its positional permutations (`permutations(c, self.n)` yields every
positional rearrangement, duplicates included) and flattening, as the source
`reshape` does.  `List.permutations'` enumerates the same multiset of
rearrangements as `itertools.permutations`; the enumeration order is
immaterial because the next step sorts and deduplicates the rows. -/
def powersRaw (n maxPower : ℕ) : List (List ℕ) :=
  (cwr n (List.range (maxPower + 1))).flatMap (fun c => c.permutations')

/-- Lexicographic comparison of integer rows, the row order used by
`numpy.unique(..., axis=0)`. -/
def lexLe : List ℕ → List ℕ → Bool
  | [], _ => true
  | _ :: _, [] => false
  | x :: xs, y :: ys => if x < y then true else if y < x then false else lexLe xs ys

/-- Insert a row into a lexicographically sorted list of rows. -/
def insertRow (r : List ℕ) : List (List ℕ) → List (List ℕ)
  | [] => [r]
  | s :: rest => if lexLe r s then r :: s :: rest else s :: insertRow r rest

/-- Insertion sort of rows by the lexicographic order. -/
def sortRows : List (List ℕ) → List (List ℕ)
  | [] => []
  | r :: rest => insertRow r (sortRows rest)

/-- Embedding of `numpy.unique(rows, axis=0)`: the distinct rows in
lexicographic order. -/
def uniqueRows (rs : List (List ℕ)) : List (List ℕ) :=
  sortRows rs.dedup

/-- The integer matrix `powers` built by `construct_linear_eigfuncs`
(lines 64-67): combinations with replacement of `{0,...,max_power}` taken
`n` at a time, expanded to all positional permutations, deduplicated and
row-sorted by `numpy.unique`. -/
def powersOf (n maxPower : ℕ) : List (List ℕ) :=
  uniqueRows (powersRaw n maxPower)

/-! ## Numeric pipeline (`construct_basis`, `construct_linear_eigfuncs`,
`construct_scaling_function`, `diffeomorphism`, `lift`)

Vectors are `List ℝ`, matrices are lists of rows.  The left-eigenvector
matrix `w` and the eigenvalue vector `lambd` delivered by `numpy.linalg.eig`
are parameters, exactly as the source consumes them after line 57. -/

/-- Dot product of two equal-length vectors. -/
def dotl (xs ys : List ℝ) : ℝ :=
  (List.zipWith (fun a b => a * b) xs ys).sum

/-- Number of columns of a row-major matrix (`m.shape[1]`). -/
def numCols (m : List (List ℝ)) : ℕ :=
  (m.headD []).length

/-- Column `j` of a row-major matrix (`m[:, j]`). -/
def colOf (m : List (List ℝ)) (j : ℕ) : List ℝ :=
  m.map (fun row => row.getD j 0)

/-- Embedding of `numpy.transpose` on a rectangular row-major matrix. -/
def transposeRC (m : List (List ℝ)) : List (List ℝ) :=
  (List.range (numCols m)).map (fun j => colOf m j)

/-- `linfunc = lambda q: dot(transpose(w), q)` (line 69): the principal
eigenfunctions of the linearised system, evaluated on one state column. -/
def linfunc (w : List (List ℝ)) (q : List ℝ) : List ℝ :=
  (transposeRC w).map (fun row => dotl row q)

/-- `eigfunc_lin = lambda q: prod(power(linfunc(q), transpose(powers)), axis=0)`
(line 70): for each row of the power matrix, the product over coordinates of
the principal eigenfunction values raised to that row of powers.  Exponents
are naturals, and `(0 : ℝ) ^ 0 = 1` exactly as `numpy.power`. -/
def eigfuncLin (pw : List (List ℕ)) (w : List (List ℝ)) (q : List ℝ) : List ℝ :=
  pw.map (fun row => (List.zipWith (fun v k => v ^ k) (linfunc w q) row).prod)

/-- The probe state `ones((self.n, 1))` of line 71. -/
def onesCol (n : ℕ) : List ℝ :=
  List.replicate n 1

/-- `self.Nlift = eigfunc_lin(ones((self.n,1))).shape[0]` (line 71). -/
def NliftOf (n maxPower : ℕ) (w : List (List ℝ)) : ℕ :=
  (eigfuncLin (powersOf n maxPower) w (onesCol n)).length

/-- `self.Lambda = log(prod(power(exp(lambd).reshape((self.n,1)),
transpose(powers)), axis=0))` (line 72): entry `i` is
`log (prod_j (exp lambd_j) ^ powers[i, j])`, computed over the same row list
(and hence the same row order) as the power matrix. -/
noncomputable def LambdaOf (lambd : List ℝ) (pw : List (List ℕ)) : List ℝ :=
  pw.map (fun row => Real.log ((List.zipWith (fun l k => Real.exp l ^ k) lambd row).prod))

/-- `scale_func = lambda q: divide(q, scale_factor)` with
`scale_factor = (ub - lb)` (lines 77-79), on one state column. -/
noncomputable def scale_func (ub lb q : List ℝ) : List ℝ :=
  List.zipWith (fun qi s => qi / s) q (List.zipWith (fun u l => u - l) ub lb)

/-- The `AttributeError` raised by `self.diffeomorphism_model.eval()` when
`build_diffeomorphism_model` has never been called and the model is still
`None` (line 86 with the `None` set in `__init__`). -/
def noneModelError : String :=
  "AttributeError: diffeomorphism_model is None and has no attribute eval"

/-- Embedding of `diffeomorphism` (lines 83-90), specialised to the
single-column inputs produced by `lift` (for one column the two transposes
cancel: the input row fed to the network is the state concatenated with the
desired state, and `return q.T` is the original column).  The network forward
pass `diff_pred` is evaluated and then discarded; the commented-out corrected
branch `return (q + diff_pred).transpose()` is inactive.  A `None` model is
an `AttributeError` at `self.diffeomorphism_model.eval()`. -/
def diffeomorphism (modelOpt : Option (List ℝ → List ℝ)) (q q_d : List ℝ) :
    Except String (List ℝ) :=
  match modelOpt with
  | none => Except.error noneModelError
  | some model =>
      let _diff_pred := model (q ++ q_d)
      Except.ok q

/-- The composed basis of `construct_basis` (line 51):
`basis = lambda q, t: eigfunc_lin(scale_func(diffeomorphism(q, t)))`,
with the exception from a `None` model propagated. -/
noncomputable def basisF (w : List (List ℝ)) (pw : List (List ℕ)) (ub lb : List ℝ)
    (modelOpt : Option (List ℝ → List ℝ)) (q q_d : List ℝ) :
    Except String (List ℝ) :=
  (diffeomorphism modelOpt q q_d).map (fun qq => eigfuncLin pw w (scale_func ub lb qq))

/-- Evaluation of the list comprehension of `lift`: the per-column results in
order, with the first raised exception aborting the whole comprehension. -/
def liftColumns (f : ℕ → Except String (List ℝ)) : List ℕ → Except String (List (List ℝ))
  | [] => Except.ok []
  | ii :: rest =>
      match f ii with
      | Except.error e => Except.error e
      | Except.ok v =>
          match liftColumns f rest with
          | Except.error e => Except.error e
          | Except.ok vs => Except.ok (v :: vs)

/-- Embedding of `lift` (lines 372-382):
`array([self.basis(q[:,ii].reshape((self.n,1)), q_d[:,ii].reshape((self.n,1)))
for ii in range(q.shape[1])])` — one entry per time sample `ii`, each the
composed basis of the `ii`-th columns of `q` and `q_d`. -/
noncomputable def lift (w : List (List ℝ)) (pw : List (List ℕ)) (ub lb : List ℝ)
    (modelOpt : Option (List ℝ → List ℝ)) (q q_d : List (List ℝ)) :
    Except String (List (List ℝ)) :=
  liftColumns (fun ii => basisF w pw ub lb modelOpt (colOf q ii) (colOf q_d ii))
    (List.range (numCols q))

/-! ## Complex-eigenvalue handling (`construct_linear_eigfuncs`, lines 59-62)

`if any(iscomplex(lambd)) or any(iscomplex(w)):`
`    Warning("Complex eigenvalues and/or eigenvalues. Complex part supressed.")`
`    lambd = real(lambd)`
`    w = real(w)`

The bare expression `Warning("...")` constructs an exception object and
immediately discards it: it is neither raised nor passed to `warnings.warn`,
so nothing is ever delivered to the caller.  The third component of the
result below is the list of warnings the call makes visible to the caller,
and it is empty on both branches for exactly that reason. -/

/-- `numpy.iscomplex` on one entry: non-zero imaginary part. -/
def iscomplexZ (z : ℂ) : Prop :=
  z.im ≠ 0

/-- `any(iscomplex(lambd))` for an eigenvalue vector. -/
def anyComplexVec (l : List ℂ) : Prop :=
  ∃ z ∈ l, iscomplexZ z

/-- `any(iscomplex(w))` for an eigenvector matrix. -/
def anyComplexMat (m : List (List ℂ)) : Prop :=
  ∃ r ∈ m, ∃ z ∈ r, iscomplexZ z

open Classical in
/-- Embedding of lines 59-62 of `construct_linear_eigfuncs`: when any entry
of `lambd` or `w` is complex, both are replaced by their real parts
(`numpy.real`, kept here as complex numbers with zero imaginary part, as
`real(...)` of a complex array reinterprets the data without changing the
values' real content); otherwise both pass through unchanged.  The final
component collects the warnings made visible to the caller: the source's
bare `Warning(...)` expression delivers none. -/
noncomputable def complexTruncationStep (lambd : List ℂ) (w : List (List ℂ)) :
    List ℂ × List (List ℂ) × List String :=
  if anyComplexVec lambd ∨ anyComplexMat w then
    (lambd.map (fun z => (z.re : ℂ)), w.map (List.map (fun z => (z.re : ℂ))), [])
  else
    (lambd, w, [])

/-! ## Diffeomorphism network architecture (`build_diffeomorphism_model`,
lines 92-117) -/

/-- One torch module added to the `nn.Sequential` model. -/
inductive Layer : Type
  | linear (inFeatures outFeatures : ℕ) : Layer
  | relu : Layer
  | dropout (p : ℝ) : Layer

/-- The result of `build_diffeomorphism_model`: the ordered module list of
the `nn.Sequential`, and the flag recording the final `.double()`
conversion. -/
structure DiffeoNet : Type where
  layers : List Layer
  doublePrecision : Bool

/-- The modules appended by the loop of lines 109-113:
`for ii in range(n_hidden_layers):` add `Linear(H, H)`, `ReLU()`, and, when
`ii < n_hidden_layers - 1`, `Dropout(p=dropout_prob)`. -/
def loopLayers (layerWidth : ℕ) (dropoutProb : ℝ) (nHiddenLayers : ℕ) : List Layer :=
  (List.range nHiddenLayers).flatMap (fun ii =>
    [Layer.linear layerWidth layerWidth, Layer.relu]
      ++ if ii < nHiddenLayers - 1 then [Layer.dropout dropoutProb] else [])

/-- Embedding of `build_diffeomorphism_model` (lines 92-117): the initial
`Sequential(Linear(2n, H), ReLU())`, the loop-appended hidden modules, the
final `Linear(H, n)` named `output`, and the `.double()` conversion. -/
def build_diffeomorphism_model (n nHiddenLayers layerWidth : ℕ) (dropoutProb : ℝ) :
    DiffeoNet :=
  { layers :=
      [Layer.linear (2 * n) layerWidth, Layer.relu]
        ++ loopLayers layerWidth dropoutProb nHiddenLayers
        ++ [Layer.linear layerWidth n]
    doublePrecision := true }

/-- Spec-side restatement of the loop-appended modules for the amended
architecture claim: `k` hidden blocks of width `layerWidth`, each
`Linear` + `ReLU`, with a `Dropout` after every block except the last. -/
def hiddenBlocks (layerWidth : ℕ) (dropoutProb : ℝ) : ℕ → List Layer
  | 0 => []
  | 1 => [Layer.linear layerWidth layerWidth, Layer.relu]
  | k + 2 => [Layer.linear layerWidth layerWidth, Layer.relu, Layer.dropout dropoutProb]
      ++ hiddenBlocks layerWidth dropoutProb (k + 1)

/-- The architecture exactly as the claim words it (for refutation): exactly
`nHiddenLayers` hidden blocks of width `layerWidth`, each followed by a ReLU,
a dropout between all but the last hidden block, and a final linear output
layer with no activation; input dimension `2 * n`, output dimension `n`. -/
def claimedNetLayers (n nHiddenLayers layerWidth : ℕ) (dropoutProb : ℝ) : List Layer :=
  (List.range nHiddenLayers).flatMap (fun ii =>
    [Layer.linear (if ii = 0 then 2 * n else layerWidth) layerWidth, Layer.relu]
      ++ if ii + 1 < nHiddenLayers then [Layer.dropout dropoutProb] else [])
    ++ [Layer.linear (if nHiddenLayers = 0 then 2 * n else layerWidth) n]

/-! ## Training-data assembly (`fit_diffeomorphism_model`, lines 144-177)

The processed arrays `X`, `X_d`, `X_dot` are flat lists of per-sample rows.
Training tensor (line 151): `npconcatenate((X, X_d, X_dot), axis=1)`.
Validation tensor (line 171): `npconcatenate((X_val, X_dot_val, X_dot_val),
axis=1)` — the middle block is the derivative again, and `Xd_val` is unused.
Targets (lines 145 and 170): `X_dot - dot(self.A_cl, X.transpose()).transpose()`
in both branches. -/

/-- Matrix-vector product `dot(A, x)` for a row-major `A`. -/
def matVec (a : List (List ℝ)) (x : List ℝ) : List ℝ :=
  a.map (fun row => dotl row x)

/-- Per-sample row of the training input tensor
`npconcatenate((X, X_d, X_dot), axis=1)` (line 151). -/
def trainInputRow (x x_d x_dot : List ℝ) : List ℝ :=
  x ++ x_d ++ x_dot

/-- Per-sample row of the validation input tensor
`npconcatenate((X_val, X_dot_val, X_dot_val), axis=1)` (line 171): the source
concatenates the derivative block twice and never uses `Xd_val` here. -/
def valInputRow (x x_d x_dot : List ℝ) : List ℝ :=
  x ++ x_dot ++ x_dot

/-- Training regression target, row-wise (line 145):
`y_target = X_dot - dot(self.A_cl, X.transpose()).transpose()`. -/
def yTargetTrain (aCl : List (List ℝ)) (xRows xDotRows : List (List ℝ)) :
    List (List ℝ) :=
  List.zipWith (fun x xdot => List.zipWith (fun d v => d - v) xdot (matVec aCl x))
    xRows xDotRows

/-- Validation regression target, row-wise (line 170):
`y_target_val = X_dot_val - dot(self.A_cl, X_val.transpose()).transpose()`. -/
def yTargetVal (aCl : List (List ℝ)) (xRows xDotRows : List (List ℝ)) :
    List (List ℝ) :=
  List.zipWith (fun x xdot => List.zipWith (fun d v => d - v) xdot (matVec aCl x))
    xRows xDotRows

/-! ## Device selection and seeding (`fit_diffeomorphism_model`,
lines 147-150) -/

/-- Line 147: `device = 'cpu' if cuda.is_available() else 'cpu'` — both
branches are the literal `'cpu'`. -/
def deviceSelect (cudaAvailable : Bool) : String :=
  if cudaAvailable then "cpu" else "cpu"

/-- The ambient, caller-invisible inputs of a `fit_diffeomorphism_model`
call: whether CUDA is available, and the state of the torch global random
number generator at entry. -/
structure FitEnv : Type where
  cudaAvailable : Bool
  ambientRngState : ℕ

/-- Skeleton of `fit_diffeomorphism_model`: the whole body after lines
147-150 (data assembly, weight setup when requested, the epoch loop with its
random split, loader shuffling and dropout, and the returned final validation
loss together with the final parameters) is a pure function `body` of the
device string, the seed installed in the global generator, the explicit
arguments and the initial model parameters — on the CPU backend every torch
operation used is deterministic given these.  Line 147 fixes the device and
line 150 (`manual_seed(42)`) overwrites the ambient generator state before
any random operation (the split at line 163, the loader shuffles, dropout,
and the Xavier init at lines 263-264), so neither component of `FitEnv`
reaches `body`. -/
def runFit {Args Params R : Type} (body : String → ℕ → Args → Params → R)
    (env : FitEnv) (args : Args) (p0 : Params) : R :=
  body (deviceSelect env.cudaAvailable) 42 args p0

/-! ## Concrete scenario of the spec (n = 2, max_power = 1,
A_cl = diag(-1, -2), ub = [1, 1], lb = [-1, -1])

For the diagonal matrix `A_cl = diag(-1, -2)`, `numpy.linalg.eig` returns
the eigenvalues in diagonal order `[-1, -2]` and the identity as eigenvector
matrix for both `A_cl` and its transpose, so the left-eigenvector matrix `w`
of line 57 is the 2 × 2 identity. -/

/-- Left-eigenvector matrix delivered by `linalg.eig(transpose(diag(-1,-2)))`. -/
def cW : List (List ℝ) := [[1, 0], [0, 1]]

/-- Upper bound `ub = [1, 1]` of the scenario. -/
def cUb : List ℝ := [1, 1]

/-- Lower bound `lb = [-1, -1]` of the scenario. -/
def cLb : List ℝ := [-1, -1]

/-- An arbitrary built diffeomorphism network (its output is discarded by
`diffeomorphism`, so any function serves). -/
def cModel : List ℝ → List ℝ := fun _ => [0, 0]

/-- The single-sample state/desired-state matrix `[[0], [0]]` (2 × 1). -/
def cQ : List (List ℝ) := [[0], [0]]

/-- Helper enumeration: `m` consecutive `Linear`/`ReLU`/`Dropout` blocks. -/
def repBlocks (layerWidth : ℕ) (dropoutProb : ℝ) : ℕ → List Layer
  | 0 => []
  | m + 1 =>
      [Layer.linear layerWidth layerWidth, Layer.relu, Layer.dropout dropoutProb]
        ++ repBlocks layerWidth dropoutProb m

/-! ## Concrete eigendecomposition outputs for the complex-truncation claim -/

/-- Eigenvalues `1 ± i` as returned by `linalg.eig` for
`A_cl = [[1, 1], [-1, 1]]`. -/
def cLambdComplex : List ℂ := [⟨1, 1⟩, ⟨1, -1⟩]

/-- A complex left-eigenvector matrix for the same `A_cl`. -/
def cWComplex : List (List ℂ) := [[⟨1, 0⟩, ⟨1, 0⟩], [⟨0, 1⟩, ⟨0, -1⟩]]

/-- All-real eigendecomposition output (that of `A_cl = diag(-1, -2)`). -/
def cLambdReal : List ℂ := [⟨-1, 0⟩, ⟨-2, 0⟩]

/-- All-real left-eigenvector matrix (the identity). -/
def cWReal : List (List ℂ) := [[⟨1, 0⟩, ⟨0, 0⟩], [⟨0, 0⟩, ⟨1, 0⟩]]

/-! ## Lemmas: combinations with replacement -/

theorem mem_cwrStep {prev : List ℕ → List (List ℕ)} (x : ℕ) (xs : List ℕ)
    (l : List ℕ) :
    l ∈ cwrStep prev (x :: xs) ↔
      (∃ l2 ∈ prev (x :: xs), l = x :: l2) ∨ l ∈ cwrStep prev xs := by
  simp only [cwrStep, List.mem_append, List.mem_map]
  constructor
  · rintro (⟨l2, h2, rfl⟩ | h)
    · exact Or.inl ⟨l2, h2, rfl⟩
    · exact Or.inr h
  · rintro (⟨l2, h2, rfl⟩ | h)
    · exact Or.inl ⟨l2, h2, rfl⟩
    · exact Or.inr h

theorem mem_cwr_range' :
    ∀ (n b a : ℕ) (l : List ℕ),
      l ∈ cwr n (List.range' a b) ↔
        l.length = n ∧ l.Pairwise (· ≤ ·) ∧ ∀ y ∈ l, a ≤ y ∧ y < a + b := by
  intro n
  induction n with
  | zero =>
      intro b a l
      simp only [cwr, List.mem_singleton]
      constructor
      · rintro rfl
        simp
      · rintro ⟨h, -, -⟩
        exact List.length_eq_zero.mp h
  | succ n ih =>
      intro b
      induction b with
      | zero =>
          intro a l
          constructor
          · intro h
            simp [cwr, cwrStep, List.range'] at h
          · rintro ⟨hlen, -, hb⟩
            cases l with
            | nil => simp at hlen
            | cons y l2 =>
                have := hb y (by simp)
                omega
      | succ b ihb =>
          intro a l
          have hrw : List.range' a (b + 1) = a :: List.range' (a + 1) b :=
            List.range'_succ a b 1
          have hsplit :
              l ∈ cwr (n + 1) (List.range' a (b + 1)) ↔
                (∃ l2 ∈ cwr n (List.range' a (b + 1)), l = a :: l2) ∨
                  l ∈ cwr (n + 1) (List.range' (a + 1) b) := by
            conv_lhs => rw [hrw]
            show l ∈ cwrStep (cwr n) (a :: List.range' (a + 1) b) ↔ _
            rw [mem_cwrStep]
            rw [← hrw]
            show _ ↔ _ ∨ l ∈ cwrStep (cwr n) (List.range' (a + 1) b)
            exact Iff.rfl
          rw [hsplit]
          constructor
          · rintro (⟨l2, h2, rfl⟩ | h)
            · obtain ⟨hlen, hpw, hbd⟩ := (ih (b + 1) a l2).mp h2
              refine ⟨by simp [hlen], ?_, ?_⟩
              · exact List.pairwise_cons.mpr ⟨fun z hz => (hbd z hz).1, hpw⟩
              · intro y hy
                rcases List.mem_cons.mp hy with rfl | hy2
                · omega
                · have := hbd y hy2
                  omega
            · obtain ⟨hlen, hpw, hbd⟩ := (ihb (a + 1) l).mp h
              refine ⟨hlen, hpw, ?_⟩
              intro y hy
              have := hbd y hy
              omega
          · rintro ⟨hlen, hpw, hbd⟩
            cases l with
            | nil => simp at hlen
            | cons y l2 =>
                have hy := hbd y (List.mem_cons_self y l2)
                by_cases hya : y = a
                · subst hya
                  left
                  refine ⟨l2, (ih (b + 1) y l2).mpr ⟨by simpa using hlen,
                    (List.pairwise_cons.mp hpw).2, ?_⟩, rfl⟩
                  intro z hz
                  have hz2 := hbd z (List.mem_cons_of_mem y hz)
                  have hyz := (List.pairwise_cons.mp hpw).1 z hz
                  omega
                · right
                  apply (ihb (a + 1) (y :: l2)).mpr
                  refine ⟨hlen, hpw, ?_⟩
                  intro z hz
                  rcases List.mem_cons.mp hz with rfl | hz2
                  · omega
                  · have h1 := (List.pairwise_cons.mp hpw).1 z hz2
                    have h2 := hbd z (List.mem_cons_of_mem y hz2)
                    omega

theorem mem_cwr_range (n maxPower : ℕ) (l : List ℕ) :
    l ∈ cwr n (List.range (maxPower + 1)) ↔
      l.length = n ∧ l.Pairwise (· ≤ ·) ∧ ∀ y ∈ l, y ≤ maxPower := by
  rw [List.range_eq_range', mem_cwr_range']
  constructor
  · rintro ⟨h1, h2, h3⟩
    refine ⟨h1, h2, fun y hy => ?_⟩
    have := h3 y hy
    omega
  · rintro ⟨h1, h2, h3⟩
    refine ⟨h1, h2, fun y hy => ?_⟩
    have := h3 y hy
    omega

theorem mem_powersRaw (n maxPower : ℕ) (r : List ℕ) :
    r ∈ powersRaw n maxPower ↔ r.length = n ∧ ∀ y ∈ r, y ≤ maxPower := by
  unfold powersRaw
  rw [List.mem_flatMap]
  constructor
  · rintro ⟨c, hc, hr⟩
    have hperm : r.Perm c := List.mem_permutations'.mp hr
    obtain ⟨h1, -, h3⟩ := (mem_cwr_range n maxPower c).mp hc
    exact ⟨hperm.length_eq.trans h1, fun y hy => h3 y (hperm.mem_iff.mp hy)⟩
  · rintro ⟨hlen, hbound⟩
    refine ⟨List.insertionSort (· ≤ ·) r, ?_, ?_⟩
    · apply (mem_cwr_range n maxPower _).mpr
      have hperm : (List.insertionSort (· ≤ ·) r).Perm r :=
        List.perm_insertionSort (· ≤ ·) r
      exact ⟨hperm.length_eq.trans hlen, List.sorted_insertionSort (· ≤ ·) r,
        fun y hy => hbound y (hperm.mem_iff.mp hy)⟩
    · exact List.mem_permutations'.mpr (List.perm_insertionSort (· ≤ ·) r).symm

/-! ## Lemmas: row sorting and deduplication -/

theorem mem_insertRow (r x : List ℕ) :
    ∀ l : List (List ℕ), x ∈ insertRow r l ↔ x = r ∨ x ∈ l := by
  intro l
  induction l with
  | nil => simp [insertRow]
  | cons s rest ih =>
      simp only [insertRow]
      by_cases h : lexLe r s = true
      · rw [if_pos h]
        simp [List.mem_cons]
      · rw [if_neg h]
        simp only [List.mem_cons, ih]
        tauto

theorem mem_sortRows (x : List ℕ) :
    ∀ l : List (List ℕ), x ∈ sortRows l ↔ x ∈ l := by
  intro l
  induction l with
  | nil => simp [sortRows]
  | cons r rest ih =>
      simp only [sortRows, mem_insertRow, ih, List.mem_cons]

theorem nodup_insertRow (r : List ℕ) :
    ∀ l : List (List ℕ), r ∉ l → l.Nodup → (insertRow r l).Nodup := by
  intro l
  induction l with
  | nil =>
      intro _ _
      simp [insertRow]
  | cons s rest ih =>
      intro hr hnd
      simp only [insertRow]
      by_cases h : lexLe r s = true
      · rw [if_pos h]
        exact List.nodup_cons.mpr ⟨hr, hnd⟩
      · rw [if_neg h]
        obtain ⟨hs, hrest⟩ := List.nodup_cons.mp hnd
        refine List.nodup_cons.mpr ⟨?_, ih (fun hm => hr (List.mem_cons_of_mem s hm)) hrest⟩
        intro hmem
        rcases (mem_insertRow r s rest).mp hmem with rfl | hm
        · exact hr (List.mem_cons_self s rest)
        · exact hs hm

theorem nodup_sortRows :
    ∀ l : List (List ℕ), l.Nodup → (sortRows l).Nodup := by
  intro l
  induction l with
  | nil =>
      intro _
      simp [sortRows]
  | cons r rest ih =>
      intro hnd
      obtain ⟨hr, hrest⟩ := List.nodup_cons.mp hnd
      exact nodup_insertRow r (sortRows rest)
        (fun hm => hr ((mem_sortRows r rest).mp hm)) (ih hrest)

theorem mem_uniqueRows (x : List ℕ) (rs : List (List ℕ)) :
    x ∈ uniqueRows rs ↔ x ∈ rs := by
  rw [uniqueRows, mem_sortRows, List.mem_dedup]

theorem nodup_uniqueRows (rs : List (List ℕ)) : (uniqueRows rs).Nodup :=
  nodup_sortRows _ (List.nodup_dedup rs)

theorem mem_powersOf (n maxPower : ℕ) (r : List ℕ) :
    r ∈ powersOf n maxPower ↔ r.length = n ∧ ∀ y ∈ r, y ≤ maxPower := by
  rw [powersOf, mem_uniqueRows, mem_powersRaw]

theorem nodup_powersOf (n maxPower : ℕ) : (powersOf n maxPower).Nodup :=
  nodup_uniqueRows _

theorem NliftOf_eq_length (n maxPower : ℕ) (w : List (List ℝ)) :
    NliftOf n maxPower w = (powersOf n maxPower).length := by
  rw [NliftOf, eigfuncLin, List.length_map]

/-! ## Lemmas: the lift comprehension -/

theorem liftColumns_ok (f : ℕ → Except String (List ℝ)) (g : ℕ → List ℝ) :
    ∀ l : List ℕ, (∀ ii ∈ l, f ii = Except.ok (g ii)) →
      liftColumns f l = Except.ok (l.map g) := by
  intro l
  induction l with
  | nil =>
      intro _
      rfl
  | cons a rest ih =>
      intro h
      have ha : f a = Except.ok (g a) := h a (List.mem_cons_self a rest)
      have hr : liftColumns f rest = Except.ok (rest.map g) :=
        ih (fun ii hii => h ii (List.mem_cons_of_mem a hii))
      simp [liftColumns, ha, hr]

theorem liftColumns_error_head (f : ℕ → Except String (List ℝ)) (a : ℕ)
    (l : List ℕ) (e : String) (h : f a = Except.error e) :
    liftColumns f (a :: l) = Except.error e := by
  simp [liftColumns, h]

theorem basisF_some (w : List (List ℝ)) (pw : List (List ℕ)) (ub lb : List ℝ)
    (m : List ℝ → List ℝ) (q q_d : List ℝ) :
    basisF w pw ub lb (some m) q q_d
      = Except.ok (eigfuncLin pw w (scale_func ub lb q)) := rfl

theorem basisF_none (w : List (List ℝ)) (pw : List (List ℕ)) (ub lb : List ℝ)
    (q q_d : List ℝ) :
    basisF w pw ub lb none q q_d = Except.error noneModelError := rfl

theorem lift_some (w : List (List ℝ)) (pw : List (List ℕ)) (ub lb : List ℝ)
    (m : List ℝ → List ℝ) (q q_d : List (List ℝ)) :
    lift w pw ub lb (some m) q q_d
      = Except.ok ((List.range (numCols q)).map
          (fun ii => eigfuncLin pw w (scale_func ub lb (colOf q ii)))) := by
  apply liftColumns_ok
  intro ii _
  exact basisF_some w pw ub lb m (colOf q ii) (colOf q_d ii)

/-! ## Lemmas: the eigenvalue vector `Lambda` -/

theorem zip_exp_pow_prod (ls : List ℝ) :
    ∀ ks : List ℕ,
      (List.zipWith (fun l k => Real.exp l ^ k) ls ks).prod
        = Real.exp ((List.zipWith (fun (l : ℝ) (k : ℕ) => l * (k : ℝ)) ls ks).sum) := by
  induction ls with
  | nil =>
      intro ks
      simp
  | cons l ls ih =>
      intro ks
      cases ks with
      | nil => simp
      | cons k ks =>
          simp only [List.zipWith_cons_cons, List.prod_cons, List.sum_cons, ih]
          rw [Real.exp_add, ← Real.exp_nat_mul, mul_comm (k : ℝ) l]

theorem LambdaOf_eq_sumForm (lambd : List ℝ) (pw : List (List ℕ)) :
    LambdaOf lambd pw
      = pw.map (fun row => (List.zipWith (fun (l : ℝ) (k : ℕ) => l * (k : ℝ)) lambd row).sum) := by
  unfold LambdaOf
  apply List.map_congr_left
  intro row _
  rw [zip_exp_pow_prod, Real.log_exp]

theorem powersOf_two_one : powersOf 2 1 = [[0, 0], [0, 1], [1, 0], [1, 1]] := by
  decide

theorem lift_origin_eval :
    lift cW (powersOf 2 1) cUb cLb (some cModel) cQ cQ
      = Except.ok [[1, 0, 0, 0]] := by
  rw [lift_some, powersOf_two_one]
  norm_num [numCols, cQ, cW, cUb, cLb, colOf, scale_func, linfunc, transposeRC,
    dotl, eigfuncLin, List.range_succ]

/-! ## Lemmas: network architecture -/

theorem flatMap_congr_mem {α β : Type} (l : List α) (f g : α → List β)
    (h : ∀ x ∈ l, f x = g x) : l.flatMap f = l.flatMap g := by
  induction l with
  | nil => rfl
  | cons a rest ih =>
      simp only [List.flatMap_cons]
      rw [h a (List.mem_cons_self a rest), ih (fun x hx => h x (List.mem_cons_of_mem a hx))]

theorem repBlocks_succ_right (lw : ℕ) (dp : ℝ) :
    ∀ m : ℕ, repBlocks lw dp (m + 1)
      = repBlocks lw dp m ++ [Layer.linear lw lw, Layer.relu, Layer.dropout dp] := by
  intro m
  induction m with
  | zero => rfl
  | succ m ih =>
      show [Layer.linear lw lw, Layer.relu, Layer.dropout dp] ++ repBlocks lw dp (m + 1) = _
      conv_lhs => rw [ih]
      rfl

theorem flatMap_const_blocks (lw : ℕ) (dp : ℝ) :
    ∀ m : ℕ, (List.range m).flatMap
        (fun _ => [Layer.linear lw lw, Layer.relu, Layer.dropout dp])
      = repBlocks lw dp m := by
  intro m
  induction m with
  | zero => rfl
  | succ m ih =>
      rw [List.range_succ, List.flatMap_append, ih, repBlocks_succ_right]
      simp

theorem hiddenBlocks_eq_rep (lw : ℕ) (dp : ℝ) :
    ∀ m : ℕ, hiddenBlocks lw dp (m + 1)
      = repBlocks lw dp m ++ [Layer.linear lw lw, Layer.relu] := by
  intro m
  induction m with
  | zero => rfl
  | succ m ih =>
      show [Layer.linear lw lw, Layer.relu, Layer.dropout dp] ++ hiddenBlocks lw dp (m + 1) = _
      rw [ih]
      rfl

theorem loopLayers_eq_hiddenBlocks (lw : ℕ) (dp : ℝ) (nH : ℕ) :
    loopLayers lw dp nH = hiddenBlocks lw dp nH := by
  cases nH with
  | zero => rfl
  | succ m =>
      unfold loopLayers
      rw [List.range_succ, List.flatMap_append]
      have hmain : (List.range m).flatMap
          (fun ii => [Layer.linear lw lw, Layer.relu]
            ++ if ii < m + 1 - 1 then [Layer.dropout dp] else [])
          = (List.range m).flatMap
              (fun _ => [Layer.linear lw lw, Layer.relu, Layer.dropout dp]) := by
        apply flatMap_congr_mem
        intro ii hii
        have hlt : ii < m + 1 - 1 := by
          have := List.mem_range.mp hii
          omega
        rw [if_pos hlt]
        rfl
      have hlast : ([m] : List ℕ).flatMap
          (fun ii => [Layer.linear lw lw, Layer.relu]
            ++ if ii < m + 1 - 1 then [Layer.dropout dp] else [])
          = [Layer.linear lw lw, Layer.relu] := by
        have hnlt : ¬ m < m + 1 - 1 := by omega
        simp [if_neg hnlt]
      rw [hmain, hlast, flatMap_const_blocks, ← hiddenBlocks_eq_rep]

/-! ## Claim theorems -/

/-- C1 (counterexample): the claim says `lift(q, q_d)` returns an
`Nlift × Nt` array whose columns are the per-sample basis values.  At the
concrete scenario (n = 2, max_power = 1, identity left eigenvectors,
ub = [1,1], lb = [-1,-1], a built model) with a single-sample input
(`Nt = 1`, `Nlift = 4`), the value `lift` actually returns has outer
dimension 1 = Nt, not Nlift = 4: the result is `Nt × Nlift`, the transpose
of the claimed shape. -/
theorem C1_counterexample :
    (∃ L, lift cW (powersOf 2 1) cUb cLb (some cModel) cQ cQ = Except.ok L
        ∧ L.length = 1)
    ∧ NliftOf 2 1 cW = 4
    ∧ ¬ (∃ L, lift cW (powersOf 2 1) cUb cLb (some cModel) cQ cQ = Except.ok L
        ∧ L.length = NliftOf 2 1 cW) := by
  have hN : NliftOf 2 1 cW = 4 := by
    rw [NliftOf_eq_length, powersOf_two_one]
    rfl
  refine ⟨⟨[[1, 0, 0, 0]], lift_origin_eval, rfl⟩, hN, ?_⟩
  rintro ⟨L, hL, hlen⟩
  rw [lift_origin_eval] at hL
  have : L = [[1, 0, 0, 0]] := by
    exact (Except.ok.injEq _ _).mp hL.symm
  rw [this, hN] at hlen
  simp at hlen

/-- C1 (amended): with a built diffeomorphism model, `lift(q, q_d)` returns
an `Nt × Nlift` array: one entry per time column `ii` of `q`, each equal to
the composed basis applied to column `ii` of `q` and `q_d` — a pure
per-column map, so entry `ii` depends on no other column. -/
theorem C1_lift_per_column (w : List (List ℝ)) (pw : List (List ℕ))
    (ub lb : List ℝ) (m : List ℝ → List ℝ) (q q_d : List (List ℝ)) (ii : ℕ) :
    lift w pw ub lb (some m) q q_d
      = Except.ok ((List.range (numCols q)).map
          (fun jj => eigfuncLin pw w (scale_func ub lb (colOf q jj))))
    ∧ basisF w pw ub lb (some m) (colOf q ii) (colOf q_d ii)
      = Except.ok (eigfuncLin pw w (scale_func ub lb (colOf q ii))) :=
  ⟨lift_some w pw ub lb m q q_d, basisF_some w pw ub lb m (colOf q ii) (colOf q_d ii)⟩

/-- C2: for every n ≥ 1 and max_power, the rows of the `powers` matrix built
by `construct_linear_eigfuncs` (combinations with replacement, expanded to
all permutations, deduplicated) are exactly the distinct length-n sequences
over {0,...,max_power}, with no duplicate row, and `Nlift` is set to the
number of those rows; in particular n = 2, max_power = 1 yields rows
[[0,0],[0,1],[1,0],[1,1]] and Nlift = 4. -/
theorem C2_powers_enumeration (n maxPower : ℕ) (h : 1 ≤ n) (row : List ℕ) :
    (row ∈ powersOf n maxPower ↔ row.length = n ∧ ∀ y ∈ row, y ≤ maxPower)
    ∧ (powersOf n maxPower).Nodup
    ∧ (∀ w : List (List ℝ), NliftOf n maxPower w = (powersOf n maxPower).length)
    ∧ powersOf 2 1 = [[0, 0], [0, 1], [1, 0], [1, 1]]
    ∧ (∀ w : List (List ℝ), NliftOf 2 1 w = 4) :=
  ⟨mem_powersOf n maxPower row, nodup_powersOf n maxPower,
    fun w => NliftOf_eq_length n maxPower w, powersOf_two_one,
    fun w => by rw [NliftOf_eq_length, powersOf_two_one]; rfl⟩

/-- Witness for C2 at n = 2, max_power = 1, row = [0, 1]. -/
theorem C2_powers_enumeration_witness :
    (([0, 1] : List ℕ) ∈ powersOf 2 1
        ↔ ([0, 1] : List ℕ).length = 2 ∧ ∀ y ∈ ([0, 1] : List ℕ), y ≤ 1)
    ∧ (powersOf 2 1).Nodup
    ∧ (∀ w : List (List ℝ), NliftOf 2 1 w = (powersOf 2 1).length)
    ∧ powersOf 2 1 = [[0, 0], [0, 1], [1, 0], [1, 1]]
    ∧ (∀ w : List (List ℝ), NliftOf 2 1 w = 4) :=
  C2_powers_enumeration 2 1 (by decide) [0, 1]

/-- C3: every entry `i` of `Lambda` equals
`log (prod_j (exp lambd_j) ^ powers[i, j])` over the (real-truncated)
eigenvalues, `Lambda` is computed over the same rows in the same order as
`powers` (same length, entry `i` a function of row `i`), the log-prod-exp
collapses to the power-weighted sum of eigenvalues, and for
A_cl = diag(-1, -2) with max_power = 1 (eigenvalues [-1, -2] in diagonal
order) `Lambda` is [0, -2, -1, -3], row-aligned with
[[0,0],[0,1],[1,0],[1,1]]. -/
theorem C3_Lambda_rows (lambd : List ℝ) (n maxPower : ℕ) :
    (LambdaOf lambd (powersOf n maxPower)).length = (powersOf n maxPower).length
    ∧ (∀ i : ℕ, (LambdaOf lambd (powersOf n maxPower))[i]?
        = ((powersOf n maxPower)[i]?).map
            (fun row => Real.log
              ((List.zipWith (fun l k => Real.exp l ^ k) lambd row).prod)))
    ∧ (∀ i : ℕ, (LambdaOf lambd (powersOf n maxPower))[i]?
        = ((powersOf n maxPower)[i]?).map
            (fun row => (List.zipWith (fun (l : ℝ) (k : ℕ) => l * (k : ℝ)) lambd row).sum))
    ∧ LambdaOf [-1, -2] (powersOf 2 1) = [0, -2, -1, -3] := by
  refine ⟨by rw [LambdaOf, List.length_map], ?_, ?_, ?_⟩
  · intro i
    rw [LambdaOf, List.getElem?_map]
  · intro i
    rw [LambdaOf_eq_sumForm, List.getElem?_map]
  · rw [LambdaOf_eq_sumForm, powersOf_two_one]
    norm_num

/-- C4 (counterexample): in the end-to-end scenario (n = 2, max_power = 1,
A_cl = diag(-1, -2), ub = [1,1], lb = [-1,-1], built model), lifting the
single sample q = q_d = [[0], [0]] does NOT give a vector of zeros: the
basis function with all-zero powers evaluates to `0 ^ 0 = 1` under numpy's
convention, so the result is [[1, 0, 0, 0]]. -/
theorem C4_counterexample :
    lift cW (powersOf 2 1) cUb cLb (some cModel) cQ cQ
        = Except.ok [[1, 0, 0, 0]]
    ∧ lift cW (powersOf 2 1) cUb cLb (some cModel) cQ cQ
        ≠ Except.ok [[(0 : ℝ), 0, 0, 0]] := by
  refine ⟨lift_origin_eval, ?_⟩
  rw [lift_origin_eval]
  simp

/-- C4 (amended): in the end-to-end scenario, lifting the single sample
q = q_d = [[0], [0]] yields the 1 × 4 result [[1, 0, 0, 0]]: every basis
function with a positive power vanishes at the scaled origin, while the
all-zero-powers basis function evaluates to 1 because `numpy.power` sets
`0 ^ 0 = 1`. -/
theorem C4_lift_at_origin :
    lift cW (powersOf 2 1) cUb cLb (some cModel) cQ cQ
      = Except.ok [[(1 : ℝ), 0, 0, 0]] :=
  lift_origin_eval

/-- C5: complex eigenvalues or eigenvectors are truncated to their real
parts, but no warning ever becomes visible to the caller: the source line
`Warning("...")` constructs an exception object and discards it without
raising or issuing it, so the warning list is empty on every input —
including the complex input `1 ± i` (from A_cl = [[1, 1], [-1, 1]]), where
truncation does occur; on an all-real input everything passes through
unchanged with no truncation. -/
theorem C5_warning_never_visible (lambd : List ℂ) (w : List (List ℂ)) :
    (complexTruncationStep lambd w).2.2 = []
    ∧ complexTruncationStep cLambdComplex cWComplex
        = (cLambdComplex.map (fun z => (z.re : ℂ)),
            cWComplex.map (List.map (fun z => (z.re : ℂ))), [])
    ∧ anyComplexVec cLambdComplex
    ∧ complexTruncationStep cLambdReal cWReal = (cLambdReal, cWReal, []) := by
  have hcomplex : anyComplexVec cLambdComplex := by
    refine ⟨⟨1, 1⟩, ?_, ?_⟩
    · simp [cLambdComplex]
    · show (1 : ℝ) ≠ 0
      norm_num
  refine ⟨?_, ?_, hcomplex, ?_⟩
  · unfold complexTruncationStep
    split <;> rfl
  · unfold complexTruncationStep
    rw [if_pos (Or.inl hcomplex)]
  · unfold complexTruncationStep
    rw [if_neg]
    simp [anyComplexVec, anyComplexMat, iscomplexZ, cLambdReal, cWReal]

/-- C6: with a built diffeomorphism model, `diffeomorphism(q, q_d)` returns
the raw state `q` unchanged: the network forward pass is performed but its
prediction never reaches the output, so the result is also independent of
which network is installed. -/
theorem C6_diffeomorphism_identity (m : List ℝ → List ℝ) (q q_d : List ℝ) :
    diffeomorphism (some m) q q_d = Except.ok q
    ∧ ∀ m2 : List ℝ → List ℝ,
        diffeomorphism (some m) q q_d = diffeomorphism (some m2) q q_d :=
  ⟨rfl, fun _ => rfl⟩

/-- C7 (counterexample): the claim says the network has exactly
`n_hidden_layers` hidden blocks (dropout between all but the last) and a
final linear layer.  At n = 1, n_hidden_layers = 2, layer_width = 50 the
built module list has 8 entries while the claimed architecture has 6: the
code always prepends an extra `Linear(2n, width) + ReLU` block before the
loop, so there are `n_hidden_layers + 1` hidden blocks, and no dropout
follows that initial block. -/
theorem C7_counterexample :
    ((build_diffeomorphism_model 1 2 50 (1 / 2)).layers).length = 8
    ∧ (claimedNetLayers 1 2 50 (1 / 2)).length = 6
    ∧ (build_diffeomorphism_model 1 2 50 (1 / 2)).layers
        ≠ claimedNetLayers 1 2 50 (1 / 2) := by
  refine ⟨rfl, rfl, ?_⟩
  intro h
  have hlen : ((build_diffeomorphism_model 1 2 50 (1 / 2)).layers).length
      = (claimedNetLayers 1 2 50 (1 / 2)).length := by rw [h]
  rw [show ((build_diffeomorphism_model 1 2 50 (1 / 2)).layers).length = 8 from rfl,
    show (claimedNetLayers 1 2 50 (1 / 2)).length = 6 from rfl] at hlen
  simp at hlen

/-- C7 (amended): `build_diffeomorphism_model` builds, in double precision,
an initial hidden block `Linear(2n, layer_width) + ReLU` (with no dropout
after it), then `n_hidden_layers` further hidden blocks
`Linear(layer_width, layer_width) + ReLU` with a dropout after each of them
except the last, and a final `Linear(layer_width, n)` output layer with no
activation — `n_hidden_layers + 1` hidden blocks in total. -/
theorem C7_architecture (n nH lw : ℕ) (dp : ℝ) :
    (build_diffeomorphism_model n nH lw dp).layers
      = [Layer.linear (2 * n) lw, Layer.relu]
          ++ hiddenBlocks lw dp nH ++ [Layer.linear lw n]
    ∧ (build_diffeomorphism_model n nH lw dp).doublePrecision = true := by
  constructor
  · show [Layer.linear (2 * n) lw, Layer.relu]
        ++ loopLayers lw dp nH ++ [Layer.linear lw n] = _
    rw [loopLayers_eq_hiddenBlocks]
  · rfl

/-- C8: the validation regression target is computed by the same formula as
the training target, but the validation input tensor is NOT assembled with
the training layout: line 171 concatenates `(X_val, X_dot_val, X_dot_val)`,
so the desired-state slot carries the state derivative and `Xd_val` never
enters — at processed sample x = [0], x_d = [1], x_dot = [2] the assembled
validation row is [0, 2, 2] where the training layout gives [0, 1, 2]. -/
theorem C8_val_pipeline_mismatch :
    (∀ (aCl xRows xDotRows : List (List ℝ)),
        yTargetVal aCl xRows xDotRows = yTargetTrain aCl xRows xDotRows)
    ∧ valInputRow [0] [1] [2] = [0, 2, 2]
    ∧ trainInputRow [0] [1] [2] = [0, 1, 2]
    ∧ valInputRow [0] [1] [2] ≠ trainInputRow [0] [1] [2] := by
  refine ⟨fun _ _ _ => rfl, rfl, rfl, ?_⟩
  intro h
  simp only [valInputRow, trainInputRow, List.cons_append, List.nil_append,
    List.cons.injEq] at h
  norm_num at h

/-- C9: when `build_diffeomorphism_model` has not been called the model is
still `None`, and `diffeomorphism` unconditionally calls `.eval()` on it, so
the composed basis always fails with the `AttributeError`, and `lift` fails
the same way on any input with at least one time sample — even though the
model output would have been discarded anyway. -/
theorem C9_lift_requires_model (w : List (List ℝ)) (pw : List (List ℕ))
    (ub lb : List ℝ) (q q_d : List (List ℝ)) (qc qc_d : List ℝ)
    (h : 0 < numCols q) :
    basisF w pw ub lb none qc qc_d = Except.error noneModelError
    ∧ lift w pw ub lb none q q_d = Except.error noneModelError := by
  refine ⟨basisF_none w pw ub lb qc qc_d, ?_⟩
  obtain ⟨k, hk⟩ : ∃ k, numCols q = k + 1 := ⟨numCols q - 1, by omega⟩
  rw [lift, hk, List.range_succ_eq_map]
  exact liftColumns_error_head _ 0 _ _ (basisF_none w pw ub lb _ _)

/-- Witness for C9 at the concrete single-sample scenario. -/
theorem C9_lift_requires_model_witness :
    0 < numCols cQ
    ∧ (basisF cW (powersOf 2 1) cUb cLb none [0, 0] [0, 0]
          = Except.error noneModelError
        ∧ lift cW (powersOf 2 1) cUb cLb none cQ cQ
          = Except.error noneModelError) :=
  ⟨by simp [numCols, cQ],
    C9_lift_requires_model cW (powersOf 2 1) cUb cLb cQ cQ [0, 0] [0, 0]
      (by simp [numCols, cQ])⟩

/-- C10: `fit_diffeomorphism_model` is deterministic across calls: the seed
fed to the torch generator is the constant 42 and the selected device is
`'cpu'` on both branches of the availability check, so the result of the
(pure, given device/seed/arguments/start parameters) remaining body is
independent of CUDA availability and of the ambient generator state —
identical arguments and identical initial parameters give identical
results. -/
theorem C10_fit_deterministic {Args Params R : Type}
    (body : String → ℕ → Args → Params → R) (env1 env2 : FitEnv)
    (args : Args) (p0 : Params) :
    runFit body env1 args p0 = runFit body env2 args p0
    ∧ deviceSelect env1.cudaAvailable = "cpu" := by
  constructor
  · unfold runFit deviceSelect
    rw [ite_self, ite_self]
  · unfold deviceSelect
    rw [ite_self]

end Keedmd
